import Mathlib

/-!
# Verification of the genetic-fuzzing core (`genetic-fuzzing-py`)

A shallow embedding, in Lean 4, of the parts of the repository that the
specification's checkable sentences talk about:

* the two `ExecutionResult` implementations
  (`src/coverage_strategy/line_coverage.py`,
  `src/coverage_strategy/branch_coverage.py`) and the generic merge helpers
  of `src/coverage_strategy/coverage.py`;
* the `novelty_replacer` step of
  `src/strategy/novel_search_strategy/novel_search.py`;
* the numeric, boolean, string, list and dict gene adapters of
  `src/type_adapter/type_adapter_implementations/`;
* `ArgsDispatcher` / `MutableProbability` construction and mutation
  (`src/type_adapter/args_dispatcher.py`, `src/util/mutable_probability.py`);
* `RandomStrategy.run` (`src/strategy/random_strategy/random_strategy.py`).

Modelling conventions, used throughout:

* Python `float` arithmetic is modelled over `ℚ` (the claims under study are
  about control flow, set algebra and monotonicity, not about rounding).
* Randomness is explicit: every random draw a method makes is a field of a
  "draw" structure passed to the embedded function.  A draw of
  `random.gauss(0, sigma)` is modelled as `sigma * z` where the field `z` is
  the underlying standard normal draw, which is faithful to the scaling
  property of Gaussians.
* Python code that raises is embedded with `Except PyErr`.
* Python `list(set(...))` values and the duplicate-free lists produced by the
  coverage analyses are modelled as `Finset`s where only their set content is
  ever consumed; lists whose order the code observes (for example
  `total_lines`, compared with `!=`) stay `List`s.
-/

/-- The Python exception classes the embedded code can raise. -/
inductive PyErr where
  /-- `ValueError` (merge of results over different universes; `randint` on
  an empty range). -/
  | valueError
  /-- `TypeError` (subscripting a bound method, calling `randint` with
  `float` arguments). -/
  | typeError
  /-- `NameError` (use of an unbound module-level name such as `np` in
  `float_adapters.py`). -/
  | nameError
  /-- A failed `assert` statement. -/
  | assertionError
  deriving DecidableEq, Repr

/-- Decidable equality of `Except` results, used to evaluate the embedded
fallible operations on concrete inputs. -/
instance {ε α : Type} [DecidableEq ε] [DecidableEq α] :
    DecidableEq (Except ε α) := fun
  | .error e, .error f =>
    if h : e = f then .isTrue (congrArg Except.error h)
    else .isFalse fun c => h (Except.error.inj c)
  | .error _, .ok _ => .isFalse Except.noConfusion
  | .ok _, .error _ => .isFalse Except.noConfusion
  | .ok a, .ok b =>
    if h : a = b then .isTrue (congrArg Except.ok h)
    else .isFalse fun c => h (Except.ok.inj c)

/-- `np.clip(x, lo, hi)` on scalars: `lo` if `x < lo`, `hi` if `x > hi`,
otherwise `x` (for `lo ≤ hi` this is `min (max x lo) hi`). -/
def pyClip (x lo hi : ℚ) : ℚ := min (max x lo) hi

/-- Python `int(x)` on a real number: truncation toward zero. -/
def pyTrunc (q : ℚ) : ℤ := if 0 ≤ q then ⌊q⌋ else ⌈q⌉

/-! ## Line coverage (`src/coverage_strategy/line_coverage.py`) -/

/-- `LineExecutionResult.__init__`: the pair of `total_lines` and
`missing_lines`.  `total_lines` stays a `List` because `merge_one` compares
the two `total_lines` attributes with the order-sensitive `!=` of Python
lists.  `missing_lines` is a Python list that is duplicate-free in every
state the program builds (it comes from `coverage`'s `analysis2` or from
`list(set(...).intersection(set(...)))` in `merge_one`), and only its set
content and its length are ever read; it is modelled as a `Finset`. -/
structure LineExecutionResult where
  totalLines : List ℤ
  missingLines : Finset ℤ
  deriving DecidableEq

namespace LineExecutionResult

/-- The `executed_lines` property: `set(total_lines) - set(missing_lines)`. -/
def executedLines (r : LineExecutionResult) : Finset ℤ :=
  r.totalLines.toFinset \ r.missingLines

/-- `fraction_covered`: `(len(total) - len(missing)) / len(total)`,
`0.0` when `total_lines` is empty. -/
def fractionCovered (r : LineExecutionResult) : ℚ :=
  if 0 < r.totalLines.length then
    ((r.totalLines.length : ℚ) - r.missingLines.card) / r.totalLines.length
  else 0

/-- `novelty`: the number of executed lines not executed by `baseline`,
normalized by `len(total_lines)` (`0.0` when `total_lines` is empty). -/
def novelty (r baseline : LineExecutionResult) : ℚ :=
  if 0 < r.totalLines.length then
    ((r.executedLines \ baseline.executedLines).card : ℚ) / r.totalLines.length
  else 0

/-- `merge_one`: raises `ValueError` when the two `total_lines` lists differ
(Python list `!=`, order included), otherwise intersects the missing sets. -/
def mergeOne (r other : LineExecutionResult) : Except PyErr LineExecutionResult :=
  if r.totalLines ≠ other.totalLines then .error .valueError
  else .ok ⟨r.totalLines, r.missingLines ∩ other.missingLines⟩

end LineExecutionResult

/-! ## Branch coverage (`src/coverage_strategy/branch_coverage.py`) -/

/-- A branch arc `(from_line, to_line)`; also the shape of a
`total_branches` entry `(line, branch_count)`. -/
abbrev Branch := ℤ × ℤ

/-- A `HashableResultContainer[(int, int)]`
(`src/coverage_strategy/hashable_result_container.py`): equality compares the
`included` and `excluded` lists element-wise after a length check, so a
container is determined by the pair of lists.  In every state the program
builds, `included` (= `taken_branches`) is duplicate-free and its order is a
function of its set content (the sorted arc list of `coverage`, or Python's
deterministic `set` iteration order in `merge_one`), so it is modelled by its
`Finset`; `excluded` (= `total_branches`) stays a `List`. -/
abbrev PathHash := Finset Branch × List Branch

/-- `BranchExecutionResult.__init__` with explicit `path_hashes`.
`taken_branches` is duplicate-free in every state the program builds (a
filtered arc list in `run_test`, `list(set(...))` in `merge_one`) and only
its set content and length are read; it is a `Finset`.  `total_branches`
stays a `List` because `merge_one` compares the attributes with `!=`. -/
structure BranchExecutionResult where
  takenBranches : Finset Branch
  totalBranches : List Branch
  pathHashes : Finset PathHash
  deriving DecidableEq

namespace BranchExecutionResult

/-- `BranchExecutionResult.__init__` with `path_hashes=None`: the hash set
defaults to the singleton container of this run. -/
def make (taken : Finset Branch) (total : List Branch) : BranchExecutionResult :=
  ⟨taken, total, {(taken, total)}⟩

/-- The `total_branches_count` attribute: the sum of the per-line branch
counts stored in `total_branches`. -/
def totalBranchesCount (r : BranchExecutionResult) : ℤ :=
  (r.totalBranches.map Prod.snd).sum

/-- `fraction_covered`: `len(taken_branches) / total_branches_count`
(`0.0` when the count is not positive). -/
def fractionCovered (r : BranchExecutionResult) : ℚ :=
  if 0 < r.totalBranchesCount then
    (r.takenBranches.card : ℚ) / (r.totalBranchesCount : ℚ)
  else 0

/-- `novelty`: `1` as soon as one of this result's path hashes is absent
from the baseline's, else `0`. -/
def novelty (r baseline : BranchExecutionResult) : ℚ :=
  if r.pathHashes ⊆ baseline.pathHashes then 0 else 1

/-- `merge_one`: raises `ValueError` when the `total_branches` lists differ,
otherwise unions the taken-branch sets and the path-hash sets. -/
def mergeOne (r other : BranchExecutionResult) : Except PyErr BranchExecutionResult :=
  if r.totalBranches ≠ other.totalBranches then .error .valueError
  else .ok ⟨r.takenBranches ∪ other.takenBranches, r.totalBranches,
            r.pathHashes ∪ other.pathHashes⟩

/-- The set of covered code locations of a branch result: its taken arcs. -/
def coveredLocations (r : BranchExecutionResult) : Finset Branch :=
  r.takenBranches

end BranchExecutionResult

/-! ## The `ExecutionResult` interface (`src/coverage_strategy/coverage.py`)

The two concrete implementations are consumed through the abstract interface
`novelty` / `merge_one`; `merge_list` and `merge_all` are the loops of the
abstract base class. -/

/-- The abstract-base-class surface of `ExecutionResult` that
`novelty_replacer` consumes: one record of methods per implementation. -/
structure ERops (E : Type) where
  novelty : E → E → ℚ
  mergeOne : E → E → Except PyErr E

namespace ERops

/-- `ExecutionResult.merge_all`: fold `merge_one` over the list, starting
from `self`. -/
def mergeAll (ops : ERops E) (r : E) : List E → Except PyErr E
  | [] => .ok r
  | x :: xs => do mergeAll ops (← ops.mergeOne r x) xs

/-- `ExecutionResult.merge_list`: asserts the list is nonempty, then folds
`merge_one` from its head. -/
def mergeList (ops : ERops E) : List E → Except PyErr E
  | [] => .error .assertionError
  | x :: xs => ops.mergeAll x xs

end ERops

/-- The line-coverage instantiation of the interface. -/
def lineOps : ERops LineExecutionResult :=
  { novelty := LineExecutionResult.novelty
    mergeOne := LineExecutionResult.mergeOne }

/-- The branch-coverage instantiation of the interface. -/
def branchOps : ERops BranchExecutionResult :=
  { novelty := BranchExecutionResult.novelty
    mergeOne := BranchExecutionResult.mergeOne }

/-! ## The novelty replacer
(`src/strategy/novel_search_strategy/novel_search.py`, `novelty_replacer`)

An inspyred individual is consumed only through its `fitness` attribute, so
the replacer is embedded over an arbitrary individual type `ι` with an
explicit `fitness` projection.  `self.current_coverage` (the archive) is the
`Option E` threaded in and out. -/

/-- One `novelty_replacer` call: derive the archive from the population when
it does not exist yet, keep the offspring whose fitness has non-zero novelty
against that archive, append them to the population, and merge their
coverage into the archive. -/
def noveltyReplacer (fitness : ι → E) (ops : ERops E) (archive : Option E)
    (population offspring : List ι) : Except PyErr (List ι × Option E) := do
  let arch0 ← match archive with
    | none => ops.mergeList (population.map fitness)
    | some a => pure a
  let individualsToAdd :=
    offspring.filter fun x => decide (ops.novelty (fitness x) arch0 ≠ 0)
  let toReturn := population ++ individualsToAdd
  let arch1 ← ops.mergeAll arch0 (individualsToAdd.map fitness)
  return (toReturn, some arch1)

/-! ## Helper lemmas on the coverage model -/

/-- With an already-initialized archive, `novelty_replacer` is: filter the
offspring by non-zero novelty, append them, merge their fitnesses. -/
theorem noveltyReplacer_some_eq (fitness : ι → E) (ops : ERops E) (A : E)
    (pop off : List ι) :
    noveltyReplacer fitness ops (some A) pop off =
      (ops.mergeAll A
          ((off.filter fun x => decide (ops.novelty (fitness x) A ≠ 0)).map fitness)).map
        fun A' =>
          (pop ++ off.filter fun x => decide (ops.novelty (fitness x) A ≠ 0), some A') := by
  unfold noveltyReplacer
  simp only [ne_eq, decide_not]
  cases h : ops.mergeAll A
      ((off.filter fun x => !decide (ops.novelty (fitness x) A = 0)).map fitness) <;>
    simp [h, Except.map, Except.bind, bind, pure, Except.pure]

/-- A line result has non-zero novelty against a baseline exactly when it
executed a line the baseline did not. -/
theorem lineNovelty_ne_zero_iff (x A : LineExecutionResult) :
    x.novelty A ≠ 0 ↔ ∃ l ∈ x.executedLines, l ∉ A.executedLines := by
  unfold LineExecutionResult.novelty
  by_cases h : 0 < x.totalLines.length
  · have hL : (x.totalLines.length : ℚ) ≠ 0 := Nat.cast_ne_zero.mpr h.ne'
    rw [if_pos h, div_ne_zero_iff]
    constructor
    · rintro ⟨hc, -⟩
      have hc' : (x.executedLines \ A.executedLines).card ≠ 0 := by exact_mod_cast hc
      obtain ⟨l, hl⟩ := Finset.card_pos.mp (Nat.pos_of_ne_zero hc')
      rw [Finset.mem_sdiff] at hl
      exact ⟨l, hl.1, hl.2⟩
    · rintro ⟨l, hin, hout⟩
      refine ⟨?_, hL⟩
      have hpos : 0 < (x.executedLines \ A.executedLines).card :=
        Finset.card_pos.mpr ⟨l, Finset.mem_sdiff.mpr ⟨hin, hout⟩⟩
      exact_mod_cast hpos.ne'
  · have hnil : x.totalLines = [] := List.length_eq_zero.mp (Nat.eq_zero_of_not_pos h)
    rw [if_neg h]
    simp [LineExecutionResult.executedLines, hnil]

/-- `merge_one` on line results can only grow the executed set and the
covered fraction. -/
theorem lineMergeOne_mono (a x m : LineExecutionResult)
    (h : a.mergeOne x = .ok m) :
    a.executedLines ⊆ m.executedLines ∧ a.fractionCovered ≤ m.fractionCovered := by
  unfold LineExecutionResult.mergeOne at h
  by_cases ht : a.totalLines = x.totalLines
  · rw [if_neg (by simpa using ht)] at h
    injection h with h
    subst h
    constructor
    · exact Finset.sdiff_subset_sdiff (Finset.Subset.refl _) Finset.inter_subset_left
    · unfold LineExecutionResult.fractionCovered
      by_cases hL : 0 < a.totalLines.length
      · rw [if_pos hL, if_pos hL,
          div_le_div_iff_of_pos_right (by exact_mod_cast hL)]
        have : (a.missingLines ∩ x.missingLines).card ≤ a.missingLines.card :=
          Finset.card_le_card Finset.inter_subset_left
        have := (Nat.cast_le (α := ℚ)).mpr this
        linarith
      · rw [if_neg hL, if_neg hL]
  · rw [if_pos (by simpa using ht)] at h
    cases h

/-- `merge_all` on line results can only grow the executed set and the
covered fraction of the accumulator. -/
theorem lineMergeAll_mono (xs : List LineExecutionResult) :
    ∀ (A A' : LineExecutionResult), lineOps.mergeAll A xs = .ok A' →
      A.executedLines ⊆ A'.executedLines ∧ A.fractionCovered ≤ A'.fractionCovered := by
  induction xs with
  | nil =>
    intro A A' h
    injection h with h
    subst h
    exact ⟨Finset.Subset.refl _, le_refl _⟩
  | cons x xs ih =>
    intro A A' h
    unfold ERops.mergeAll at h
    cases hm : lineOps.mergeOne A x with
    | error e => rw [hm] at h; cases h
    | ok m =>
      rw [hm] at h
      obtain ⟨h1, h2⟩ := lineMergeOne_mono A x m hm
      obtain ⟨h3, h4⟩ := ih m A' h
      exact ⟨h1.trans h3, h2.trans h4⟩

/-- `merge_one` on branch results can only grow the taken-arc set and the
covered fraction. -/
theorem branchMergeOne_mono (a x m : BranchExecutionResult)
    (h : a.mergeOne x = .ok m) :
    a.coveredLocations ⊆ m.coveredLocations
      ∧ a.fractionCovered ≤ m.fractionCovered := by
  unfold BranchExecutionResult.mergeOne at h
  by_cases ht : a.totalBranches = x.totalBranches
  · rw [if_neg (by simpa using ht)] at h
    injection h with h
    subst h
    constructor
    · exact Finset.subset_union_left
    · unfold BranchExecutionResult.fractionCovered BranchExecutionResult.totalBranchesCount
      by_cases hc : 0 < (a.totalBranches.map Prod.snd).sum
      · rw [if_pos hc, if_pos hc,
          div_le_div_iff_of_pos_right (by exact_mod_cast hc)]
        have hcard : a.takenBranches.card
            ≤ (a.takenBranches ∪ x.takenBranches).card :=
          Finset.card_le_card Finset.subset_union_left
        exact_mod_cast hcard
      · rw [if_neg hc, if_neg hc]
  · rw [if_pos (by simpa using ht)] at h
    cases h

/-- `merge_all` on branch results can only grow the taken-arc set and the
covered fraction of the accumulator. -/
theorem branchMergeAll_mono (xs : List BranchExecutionResult) :
    ∀ (A A' : BranchExecutionResult), branchOps.mergeAll A xs = .ok A' →
      A.coveredLocations ⊆ A'.coveredLocations
        ∧ A.fractionCovered ≤ A'.fractionCovered := by
  induction xs with
  | nil =>
    intro A A' h
    injection h with h
    subst h
    exact ⟨Finset.Subset.refl _, le_refl _⟩
  | cons x xs ih =>
    intro A A' h
    unfold ERops.mergeAll at h
    cases hm : branchOps.mergeOne A x with
    | error e => rw [hm] at h; cases h
    | ok m =>
      rw [hm] at h
      obtain ⟨h1, h2⟩ := branchMergeOne_mono A x m hm
      obtain ⟨h3, h4⟩ := ih m A' h
      exact ⟨h1.trans h3, h2.trans h4⟩

/-! ## C5: `merge_one` is commutative and idempotent on covered sets -/

/-- C5 (confirmed).  For results over the same universe, `merge_one` is
commutative on covered-location sets, and merging a result with itself
leaves its covered set unchanged; both for line and branch coverage. -/
theorem mergeOne_comm_idem_on_covered_sets :
    (∀ a b : LineExecutionResult, a.totalLines = b.totalLines →
      (a.mergeOne b).map LineExecutionResult.executedLines
        = (b.mergeOne a).map LineExecutionResult.executedLines)
    ∧ (∀ a : LineExecutionResult,
      (a.mergeOne a).map LineExecutionResult.executedLines = .ok a.executedLines)
    ∧ (∀ a b : BranchExecutionResult, a.totalBranches = b.totalBranches →
      (a.mergeOne b).map BranchExecutionResult.coveredLocations
        = (b.mergeOne a).map BranchExecutionResult.coveredLocations)
    ∧ (∀ a : BranchExecutionResult,
      (a.mergeOne a).map BranchExecutionResult.coveredLocations
        = .ok a.coveredLocations) := by
  refine ⟨?_, ?_, ?_, ?_⟩
  · intro a b h
    simp [LineExecutionResult.mergeOne, h, LineExecutionResult.executedLines,
      Except.map, Finset.inter_comm]
  · intro a
    simp [LineExecutionResult.mergeOne, LineExecutionResult.executedLines,
      Except.map, Finset.inter_self]
  · intro a b h
    simp [BranchExecutionResult.mergeOne, h, BranchExecutionResult.coveredLocations,
      Except.map, Finset.union_comm]
  · intro a
    simp [BranchExecutionResult.mergeOne, BranchExecutionResult.coveredLocations,
      Except.map, Finset.union_self]

/-! ## C1: admission into the novelty-search population -/

/-- C1 (corrected), counterexample.  For branch coverage, novelty is decided
by path hashes, not covered locations: the archive obtained by merging a run
that took only arc `(1,3)` with a run that took only arc `(1,4)` already
covers both arcs, yet a third run taking both arcs in one execution has
`novelty(archive) = 1 ≠ 0` (its path hash is new) while covering no location
outside the archive.  So "novelty non-zero" does not mean "covers a location
not already in the archive". -/
theorem branchNovelty_nonzero_without_new_location :
    ∃ archive,
      BranchExecutionResult.mergeOne
          (.make {((1 : ℤ), (3 : ℤ))} [((1 : ℤ), (2 : ℤ))])
          (.make {((1 : ℤ), (4 : ℤ))} [((1 : ℤ), (2 : ℤ))]) = .ok archive
      ∧ BranchExecutionResult.novelty
          (.make {((1 : ℤ), (3 : ℤ)), ((1 : ℤ), (4 : ℤ))} [((1 : ℤ), (2 : ℤ))])
          archive ≠ 0
      ∧ BranchExecutionResult.coveredLocations
          (.make {((1 : ℤ), (3 : ℤ)), ((1 : ℤ), (4 : ℤ))} [((1 : ℤ), (2 : ℤ))])
          ⊆ BranchExecutionResult.coveredLocations archive := by
  refine ⟨_, rfl, by decide, by decide⟩

/-- C1 (corrected), amended.  With an initialized archive, an offspring is
admitted exactly when its fitness's `novelty(archive) != 0`; the resulting
population is the old population with the admitted offspring appended (so it
never shrinks) and the admitted coverage is merged into the archive.  For
*line* coverage non-zero novelty is equivalent to covering a line outside
the archive; for *branch* coverage it is not (see the counterexample). -/
theorem noveltyReplacer_admits_iff_novelty_nonzero :
    (∀ (ι E : Type) (fitness : ι → E) (ops : ERops E) (A : E) (pop off : List ι),
      noveltyReplacer fitness ops (some A) pop off =
        (ops.mergeAll A
            ((off.filter fun x => decide (ops.novelty (fitness x) A ≠ 0)).map fitness)).map
          fun A' =>
            (pop ++ off.filter fun x => decide (ops.novelty (fitness x) A ≠ 0), some A'))
    ∧ (∀ (ι E : Type) (fitness : ι → E) (ops : ERops E) (A : E) (off : List ι) (y : ι),
      y ∈ off.filter (fun x => decide (ops.novelty (fitness x) A ≠ 0)) ↔
        y ∈ off ∧ ops.novelty (fitness y) A ≠ 0)
    ∧ (∀ (ι E : Type) (fitness : ι → E) (ops : ERops E) (A : E)
        (pop off newPop : List ι) (arch : Option E),
      noveltyReplacer fitness ops (some A) pop off = .ok (newPop, arch) →
        newPop = pop ++ off.filter (fun x => decide (ops.novelty (fitness x) A ≠ 0))
        ∧ pop.length ≤ newPop.length)
    ∧ (∀ x A : LineExecutionResult,
        x.novelty A ≠ 0 ↔ ∃ l ∈ x.executedLines, l ∉ A.executedLines) := by
  refine ⟨?_, ?_, ?_, lineNovelty_ne_zero_iff⟩
  · intro ι E fitness ops A pop off
    exact noveltyReplacer_some_eq fitness ops A pop off
  · intro ι E fitness ops A off y
    simp [List.mem_filter]
  · intro ι E fitness ops A pop off newPop arch h
    rw [noveltyReplacer_some_eq] at h
    cases hm : ops.mergeAll A
        ((off.filter fun x => decide (ops.novelty (fitness x) A ≠ 0)).map fitness) with
    | error e => rw [hm] at h; cases h
    | ok B =>
      rw [hm] at h
      simp only [Except.map, Except.ok.injEq, Prod.mk.injEq] at h
      obtain ⟨h1, -⟩ := h
      refine ⟨h1.symm, ?_⟩
      rw [← h1]
      simp

/-! ## C2: the archive's covered fraction never decreases -/

/-- C2 (confirmed).  Whenever `novelty_replacer` runs a step on an existing
archive, the archive after the step covers a superset of the locations it
covered before and its `fraction_covered()` does not decrease — for both
`ExecutionResult` implementations, so in particular for the
`BranchCoverageTester` a NoveltySearch run uses by default
(`strategy.py:14`) and for `LineCoverageTester`. -/
theorem noveltyArchive_fraction_nondecreasing :
    (∀ (A : LineExecutionResult) (pop off newPop : List LineExecutionResult)
      (A' : LineExecutionResult),
      noveltyReplacer id lineOps (some A) pop off = .ok (newPop, some A') →
      A.executedLines ⊆ A'.executedLines
        ∧ A.fractionCovered ≤ A'.fractionCovered)
    ∧ ∀ (A : BranchExecutionResult) (pop off newPop : List BranchExecutionResult)
      (A' : BranchExecutionResult),
      noveltyReplacer id branchOps (some A) pop off = .ok (newPop, some A') →
      A.coveredLocations ⊆ A'.coveredLocations
        ∧ A.fractionCovered ≤ A'.fractionCovered := by
  constructor
  · intro A pop off newPop A' h
    rw [noveltyReplacer_some_eq] at h
    cases hm : lineOps.mergeAll A
        ((off.filter fun x => decide (lineOps.novelty (id x) A ≠ 0)).map id) with
    | error e => rw [hm] at h; cases h
    | ok B =>
      rw [hm] at h
      simp only [Except.map, Except.ok.injEq, Prod.mk.injEq, Option.some.injEq] at h
      obtain ⟨-, hB⟩ := h
      subst hB
      exact lineMergeAll_mono _ A B hm
  · intro A pop off newPop A' h
    rw [noveltyReplacer_some_eq] at h
    cases hm : branchOps.mergeAll A
        ((off.filter fun x => decide (branchOps.novelty (id x) A ≠ 0)).map id) with
    | error e => rw [hm] at h; cases h
    | ok B =>
      rw [hm] at h
      simp only [Except.map, Except.ok.injEq, Prod.mk.injEq, Option.some.injEq] at h
      obtain ⟨-, hB⟩ := h
      subst hB
      exact branchMergeAll_mono _ A B hm

/-- Witness for C2's theorem, both implementations.  Line coverage: one
admitted offspring covering line 1 turns the archive `⟨[1], missing {1}⟩`
into `⟨[1], missing ∅⟩`.  Branch coverage: one admitted offspring taking arc
`(1,3)` turns the empty-coverage archive over universe `[(1,2)]` into one
covering `{(1,3)}`. -/
theorem noveltyArchive_fraction_nondecreasing_witness :
    (LineExecutionResult.executedLines ⟨[1], {1}⟩
        ⊆ LineExecutionResult.executedLines ⟨[1], ∅⟩
      ∧ LineExecutionResult.fractionCovered ⟨[1], {1}⟩
        ≤ LineExecutionResult.fractionCovered ⟨[1], ∅⟩)
    ∧ BranchExecutionResult.coveredLocations (.make ∅ [((1 : ℤ), (2 : ℤ))])
        ⊆ BranchExecutionResult.coveredLocations
          ⟨{((1 : ℤ), (3 : ℤ))}, [((1 : ℤ), (2 : ℤ))],
           {(∅, [((1 : ℤ), (2 : ℤ))]), ({((1 : ℤ), (3 : ℤ))}, [((1 : ℤ), (2 : ℤ))])}⟩
      ∧ BranchExecutionResult.fractionCovered (.make ∅ [((1 : ℤ), (2 : ℤ))])
        ≤ BranchExecutionResult.fractionCovered
          ⟨{((1 : ℤ), (3 : ℤ))}, [((1 : ℤ), (2 : ℤ))],
           {(∅, [((1 : ℤ), (2 : ℤ))]), ({((1 : ℤ), (3 : ℤ))}, [((1 : ℤ), (2 : ℤ))])}⟩ :=
  ⟨noveltyArchive_fraction_nondecreasing.1 ⟨[1], {1}⟩ [] [⟨[1], ∅⟩]
      [⟨[1], ∅⟩] ⟨[1], ∅⟩ (by
        have hnov : LineExecutionResult.novelty ⟨[1], ∅⟩ ⟨[1], {1}⟩ = 1 := by
          norm_num [LineExecutionResult.novelty, LineExecutionResult.executedLines]
        simp [noveltyReplacer, lineOps, hnov, ERops.mergeAll,
          LineExecutionResult.mergeOne, Except.bind, bind, pure, Except.pure]),
    noveltyArchive_fraction_nondecreasing.2 (.make ∅ [((1 : ℤ), (2 : ℤ))]) []
      [.make {((1 : ℤ), (3 : ℤ))} [((1 : ℤ), (2 : ℤ))]]
      [.make {((1 : ℤ), (3 : ℤ))} [((1 : ℤ), (2 : ℤ))]]
      ⟨{((1 : ℤ), (3 : ℤ))}, [((1 : ℤ), (2 : ℤ))],
       {(∅, [((1 : ℤ), (2 : ℤ))]), ({((1 : ℤ), (3 : ℤ))}, [((1 : ℤ), (2 : ℤ))])}⟩
      (by decide)⟩

/-! ## Numeric gene adapters
(`src/type_adapter/type_adapter_implementations/int_adapter.py`,
`src/type_adapter/type_adapter_implementations/float_adapters.py`)

Both adapters keep their search state in a 5-slot `float64` array, indexed
by `I_VALUE`, `I_MUT_STD`, `I_RESET_PROB`, `I_RESET_LOWER_BOUND`,
`I_RESET_UPPER_BOUND`; it is modelled as a structure with one field per
slot, over `ℚ`. -/

/-- The 5-slot state array of a numeric adapter. -/
structure NumericAdapterState where
  value : ℚ
  mutStd : ℚ
  resetProb : ℚ
  resetLo : ℚ
  resetHi : ℚ
  deriving DecidableEq

/-- The random draws one `mutate` call can consume.  `z*` fields are the
standard normal draws behind the `random.gauss(0, sigma)` calls (the drawn
value is `sigma * z`), `uniform` is the `random.random()` draw deciding the
reset, and `resetDraw` determines the `random.randint` result. -/
structure NumericMutateDraws where
  zResetProb : ℚ
  zMutStd : ℚ
  uniform : ℚ
  resetDraw : ℤ
  zValue : ℚ
  zResetLo : ℚ
  zResetHi : ℚ
  deriving DecidableEq

namespace IntAdapter

/-- `IntAdapter.mutate`: perturb `reset_prob` (Gaussian with sigma
`RESET_PROB_MUTATION_RATE = 0.05`) and `mut_std` (sigma
`MUT_STD_MUTATION_RATE = 1`), both clipped to `[0,1]`; then either reset
`mut_std` to `random.randint(int(reset_lo), int(reset_hi))` (raising
`ValueError` when the truncated range is empty) or add Gaussian noise with
sigma `mut_std` to `value`, `reset_lo` and `reset_hi`. -/
def mutate (s : NumericAdapterState) (d : NumericMutateDraws) :
    Except PyErr NumericAdapterState :=
  let resetProb := pyClip (s.resetProb + 1/20 * d.zResetProb) 0 1
  let mutStd := pyClip (s.mutStd + 1 * d.zMutStd) 0 1
  if d.uniform < resetProb then
    let lo := pyTrunc s.resetLo
    let hi := pyTrunc s.resetHi
    if hi < lo then .error .valueError
    else .ok ⟨s.value, ((lo + d.resetDraw % (hi - lo + 1) : ℤ) : ℚ),
              resetProb, s.resetLo, s.resetHi⟩
  else
    .ok ⟨s.value + mutStd * d.zValue, mutStd, resetProb,
         s.resetLo + mutStd * d.zResetLo, s.resetHi + mutStd * d.zResetHi⟩

end IntAdapter

namespace FloatAdapter

/-- `FloatAdapter.mutate`: the module `float_adapters.py` contains no
`import numpy as np`, so after the first two statements bind a local to
`self.value[I_RESET_PROB] + random.gauss(0, RESET_PROB_MUTATION_RATE)`, the
call `np.clip(reset_prob, 0, 1)` looks up the unbound module-level name
`np` and raises `NameError`; no later statement of the method is ever
reached (and even they would call `random.randint` with `float` arguments,
a `TypeError`). -/
def mutate (s : NumericAdapterState) (d : NumericMutateDraws) :
    Except PyErr NumericAdapterState :=
  let _resetProb := s.resetProb + 1/20 * d.zResetProb
  .error .nameError

end FloatAdapter

/-! ## C3: the numeric `mutate` algorithm -/

/-- C3 (code_bug).  `FloatAdapter.mutate` raises `NameError` on every call
(missing `numpy` import), so "mutate terminates normally in all cases" fails
for the float adapter; `IntAdapter.mutate` does implement the claimed
algorithm: on the non-reset path all three of `value`, `reset_lo`,
`reset_hi` get independent noise scaled by the clipped step, and on the
reset path (with a nonempty truncated range) the step is redrawn inside
`[int(reset_lo), int(reset_hi)]` while `value` and the bounds are kept. -/
theorem numericMutate_float_raises_int_follows_spec :
    (∀ (s : NumericAdapterState) (d : NumericMutateDraws),
      FloatAdapter.mutate s d = .error .nameError)
    ∧ (∀ (s : NumericAdapterState) (d : NumericMutateDraws),
      ¬ d.uniform < pyClip (s.resetProb + 1/20 * d.zResetProb) 0 1 →
        IntAdapter.mutate s d =
          .ok ⟨s.value + pyClip (s.mutStd + 1 * d.zMutStd) 0 1 * d.zValue,
               pyClip (s.mutStd + 1 * d.zMutStd) 0 1,
               pyClip (s.resetProb + 1/20 * d.zResetProb) 0 1,
               s.resetLo + pyClip (s.mutStd + 1 * d.zMutStd) 0 1 * d.zResetLo,
               s.resetHi + pyClip (s.mutStd + 1 * d.zMutStd) 0 1 * d.zResetHi⟩)
    ∧ (∀ (s : NumericAdapterState) (d : NumericMutateDraws),
      d.uniform < pyClip (s.resetProb + 1/20 * d.zResetProb) 0 1 →
      pyTrunc s.resetLo ≤ pyTrunc s.resetHi →
        ∃ m, IntAdapter.mutate s d = .ok m
          ∧ (pyTrunc s.resetLo : ℚ) ≤ m.mutStd
          ∧ m.mutStd ≤ (pyTrunc s.resetHi : ℚ)
          ∧ m.value = s.value ∧ m.resetLo = s.resetLo ∧ m.resetHi = s.resetHi) := by
  refine ⟨fun s d => rfl, ?_, ?_⟩
  · intro s d h
    unfold IntAdapter.mutate
    rw [if_neg h]
  · intro s d h hrange
    unfold IntAdapter.mutate
    rw [if_pos h, if_neg (not_lt.mpr hrange)]
    have hpos : 0 < pyTrunc s.resetHi - pyTrunc s.resetLo + 1 := by omega
    have h0 : 0 ≤ d.resetDraw % (pyTrunc s.resetHi - pyTrunc s.resetLo + 1) :=
      Int.emod_nonneg _ hpos.ne'
    have h1 : d.resetDraw % (pyTrunc s.resetHi - pyTrunc s.resetLo + 1)
        < pyTrunc s.resetHi - pyTrunc s.resetLo + 1 := Int.emod_lt_of_pos _ hpos
    refine ⟨_, rfl, ?_, ?_, rfl, rfl, rfl⟩
    · have hb : pyTrunc s.resetLo ≤ pyTrunc s.resetLo
          + d.resetDraw % (pyTrunc s.resetHi - pyTrunc s.resetLo + 1) := by omega
      show (pyTrunc s.resetLo : ℚ) ≤
        ((pyTrunc s.resetLo
          + d.resetDraw % (pyTrunc s.resetHi - pyTrunc s.resetLo + 1) : ℤ) : ℚ)
      exact_mod_cast hb
    · have hb : pyTrunc s.resetLo
          + d.resetDraw % (pyTrunc s.resetHi - pyTrunc s.resetLo + 1)
          ≤ pyTrunc s.resetHi := by omega
      show ((pyTrunc s.resetLo
          + d.resetDraw % (pyTrunc s.resetHi - pyTrunc s.resetLo + 1) : ℤ) : ℚ) ≤
        (pyTrunc s.resetHi : ℚ)
      exact_mod_cast hb

/-! ## C4: seeding an adapter
(`src/type_adapter/type_adapter_implementations/bool_adapter.py`,
`str_adapter.py`) -/

namespace BoolAdapter

/-- `BoolAdapter.initialize`: the body is
`value = initial_value or random.choice[True, False]`.  When
`initial_value` is truthy (only `True`), the `or` short-circuits and the
seed is stored.  Otherwise (seed `False`, or no seed) Python evaluates the
right operand, which *subscripts* the bound method `random.choice` instead
of calling it and raises `TypeError: 'method' object is not subscriptable`.
-/
def initializeAdapter (initialValue : Option Bool) : Except PyErr Bool :=
  if initialValue.getD false then .ok true else .error .typeError

end BoolAdapter

namespace StrAdapter

/-- `StrAdapter.initialize` with a seed: `if initial_value is not None:
return cls(initial_value)` — the seed becomes the stored value. -/
def initializeSeeded (initialValue : List Char) : List Char := initialValue

end StrAdapter

/-- C4 (code_bug).  `BoolAdapter.initialize` with seed `False` (and with no
seed) raises `TypeError` instead of honouring the seed; only seed `True`
round-trips.  The string adapter's seeded path does return exactly the
seed. -/
theorem boolInitialize_seed_false_raises :
    BoolAdapter.initializeAdapter (some false) = .error .typeError
    ∧ BoolAdapter.initializeAdapter none = .error .typeError
    ∧ BoolAdapter.initializeAdapter (some true) = .ok true
    ∧ ∀ s : List Char, StrAdapter.initializeSeeded s = s :=
  ⟨rfl, rfl, rfl, fun _ => rfl⟩

/-! ## C7: string and list mutation never leaves an empty value
(`src/type_adapter/type_adapter_implementations/str_adapter.py`,
`list_adapter.py`) -/

/-- The trailing repair statement shared by `StrAdapter.mutate` and
`ListAdapter.mutate`: if the mutation emptied the value, re-seed it with one
fresh element. -/
def reseedIfEmpty (m : List β) (r : β) : List β :=
  if m.length = 0 then [r] else m

/-- The repaired value is never empty. -/
theorem one_le_reseedIfEmpty (m : List β) (r : β) :
    1 ≤ (reseedIfEmpty m r).length := by
  unfold reseedIfEmpty
  by_cases h : m.length = 0
  · simp [h]
  · rw [if_neg h]
    omega

namespace StrAdapter

/-- The draws of one `StrAdapter.mutate` call: the weighted
`random.choices([0,1,2], weights=[50,25,25])` outcome, the position draw,
the substituted/inserted character and the re-seeding character. -/
structure MutateDraws where
  mutationType : Fin 3
  pos : ℕ
  newChar : Char
  reseedChar : Char

/-- `StrAdapter.mutate`: substitution (type 0, only on a nonempty string),
insertion (type 1), deletion (type 2, only on a nonempty string); slicing
`current_val[:pos]` / `current_val[pos:]` is `List.take` / `List.drop`.  A
result that ends up empty is immediately re-seeded with one random
character. -/
def mutate (value : List Char) (d : MutateDraws) : List Char :=
  let n := value.length
  let mutated :=
    if d.mutationType = 0 ∧ 0 < n then
      value.take d.pos ++ [d.newChar] ++ value.drop (d.pos + 1)
    else if d.mutationType = 1 then
      value.take d.pos ++ [d.newChar] ++ value.drop d.pos
    else if d.mutationType = 2 ∧ 0 < n then
      value.take d.pos ++ value.drop (d.pos + 1)
    else value
  reseedIfEmpty mutated d.reseedChar

end StrAdapter

namespace ListAdapter

/-- The draws (and recursively-determined effects) of one
`ListAdapter.mutate` call: the weighted mutation-type outcome, the position
draw, the effect of `self.value[pos].mutate(random)` on the chosen child,
and the child adapters produced by `self.adapter.initialize` for insertion
and for re-seeding. -/
structure MutateDraws (α : Type) where
  mutationType : Fin 3
  pos : ℕ
  mutateChild : α → α
  newElement : α
  reseedElement : α

/-- `ListAdapter.mutate`: element mutation in place (type 0, nonempty
list), insertion of a fresh child (type 1), deletion (type 2, nonempty
list); an emptied list is immediately re-seeded with one fresh child. -/
def mutate (value : List α) (d : MutateDraws α) : List α :=
  let n := value.length
  let mutated :=
    if d.mutationType = 0 ∧ 0 < n then
      value.take d.pos ++ ((value.drop d.pos).take 1).map d.mutateChild
        ++ value.drop (d.pos + 1)
    else if d.mutationType = 1 then
      value.take d.pos ++ [d.newElement] ++ value.drop d.pos
    else if d.mutationType = 2 ∧ 0 < n then
      value.take d.pos ++ value.drop (d.pos + 1)
    else value
  reseedIfEmpty mutated d.reseedElement

end ListAdapter

/-- C7 (confirmed).  A string or list adapter holding a nonempty value
still holds a nonempty value after any single `mutate` call. -/
theorem mutate_result_nonempty :
    (∀ (value : List Char) (d : StrAdapter.MutateDraws), 1 ≤ value.length →
      1 ≤ (StrAdapter.mutate value d).length)
    ∧ ∀ (α : Type) (value : List α) (d : ListAdapter.MutateDraws α),
      1 ≤ value.length → 1 ≤ (ListAdapter.mutate value d).length := by
  constructor
  · intro value d _
    exact one_le_reseedIfEmpty _ _
  · intro α value d _
    exact one_le_reseedIfEmpty _ _

/-! ## C6: when `merge_one` fails -/

/-- C6 (corrected), counterexample.  Two results whose universes are equal
as location *sets* but whose `total_lines` *lists* are ordered differently:
`merge_one` still raises `ValueError`, so "every pair built against the same
universe merges without error" fails as stated. -/
theorem mergeOne_rejects_reordered_universe :
    (([1, 2] : List ℤ).toFinset = ([2, 1] : List ℤ).toFinset)
    ∧ LineExecutionResult.mergeOne ⟨[1, 2], ∅⟩ ⟨[2, 1], ∅⟩
        = .error .valueError := by
  constructor
  · decide
  · rfl

/-- C6 (corrected), amended.  `merge_one` returns a merged result exactly
when the two `total_lines` (resp. `total_branches`) lists are equal as
lists, and raises `ValueError` otherwise; equality of the universes as sets
is not sufficient. -/
theorem mergeOne_ok_iff_equal_total_lists :
    (∀ a b : LineExecutionResult,
      (∃ m, a.mergeOne b = .ok m) ↔ a.totalLines = b.totalLines)
    ∧ (∀ a b : BranchExecutionResult,
      (∃ m, a.mergeOne b = .ok m) ↔ a.totalBranches = b.totalBranches) := by
  constructor
  · intro a b
    by_cases h : a.totalLines = b.totalLines <;>
      simp [LineExecutionResult.mergeOne, h]
  · intro a b
    by_cases h : a.totalBranches = b.totalBranches <;>
      simp [BranchExecutionResult.mergeOne, h]

/-! ## C9: `RandomStrategy.run`
(`src/strategy/random_strategy/random_strategy.py`)

The method builds one `Individual` holding `num_inputs` freshly initialized
`ArgsDispatcher`s, evaluates it once (`individual.evaluate(self.tester)`
runs the whole batch in a single merged coverage session and returns its
`fraction_covered()`), prints the score and returns the batch's argument
tuples.  It contains no loop over generations and no `self.log` call. -/

/-- What one `RandomStrategy.run()` call produces: the printed score, the
returned argument tuples, and the `(step, score)` records it logged. -/
structure RandomRunResult (ι : Type) where
  score : ℚ
  args : List ι
  logs : List (ℕ × ℚ)

namespace RandomStrategy

/-- `RandomStrategy.run`, over an oracle `gen` for the `i`-th freshly
initialized dispatcher and the strategy's tester (batch evaluation plus
`fraction_covered`). -/
def run (numInputs : ℕ) (gen : ℕ → ι) (tester : List ι → E)
    (fractionCovered : E → ℚ) : RandomRunResult ι :=
  let individual := (List.range numInputs).map gen
  let score := fractionCovered (tester individual)
  { score := score, args := individual, logs := [] }

end RandomStrategy

/-- C9 (corrected), counterexample.  A concrete `RandomStrategy.run` call
logs no `(generation_index, coverage)` record at all, refuting "one record
logged per generation until the generation budget is exhausted". -/
theorem randomStrategyRun_logs_nothing :
    (RandomStrategy.run 2 (fun i => (i : ℤ)) (fun _ => (0 : ℚ)) id).logs = [] := rfl

/-- C9 (corrected), amended.  `RandomStrategy.run` evaluates exactly one
fresh batch of `num_inputs` generated inputs, in one merged coverage
result, returns that batch, and logs nothing; there is no generational
loop and nothing persists across generations. -/
theorem randomStrategyRun_single_batch :
    ∀ (ι E : Type) (numInputs : ℕ) (gen : ℕ → ι) (tester : List ι → E)
      (frac : E → ℚ),
      (RandomStrategy.run numInputs gen tester frac).args
          = (List.range numInputs).map gen
      ∧ (RandomStrategy.run numInputs gen tester frac).args.length = numInputs
      ∧ (RandomStrategy.run numInputs gen tester frac).score
          = frac (tester ((List.range numInputs).map gen))
      ∧ (RandomStrategy.run numInputs gen tester frac).logs = [] := by
  intro ι E numInputs gen tester frac
  refine ⟨rfl, ?_, rfl, rfl⟩
  show ((List.range numInputs).map gen).length = numInputs
  simp

/-! ## C10: shared mutable state between candidates
(`src/type_adapter/args_dispatcher.py`, `src/util/mutable_probability.py`)

`ArgsDispatcher.__init__` declares
`mutation_probability = MutableProbability(0.2, 0.02)` as a *default
argument*.  Python evaluates a default argument once, when the `def` is
executed at class-definition time, so every dispatcher constructed without
an explicit `mutation_probability` — in particular every one built by
`ArgsDispatcher.initialize`, the generator of both search strategies —
holds a reference to the *same* `MutableProbability` object.  The embedding
makes object identity explicit: a store maps object ids to
`MutableProbability` states, and the default object lives at one fixed id.
(`Individual.__init__` in `src/strategy/input_bag_strategy/input_bag.py`
has the same `mutation_probability = MutableProbability(0.1, 0.01)`
default.) -/

/-- The state of a `MutableProbability` object: probability `v` and
mutation standard deviation `std`. -/
structure MutableProbability where
  v : ℚ
  std : ℚ
  deriving DecidableEq

/-- `MutableProbability.mutate`: `self.v += random.gauss(0, self.std)` then
`np.clip(self.v, 0, 1)`; `z` is the standard normal draw behind the
Gaussian. -/
def MutableProbability.mutate (s : MutableProbability) (z : ℚ) :
    MutableProbability :=
  ⟨pyClip (s.v + s.std * z) 0 1, s.std⟩

/-- A store of `MutableProbability` objects, indexed by object id. -/
def MPStore : Type := ℕ → MutableProbability

/-- The object id of the one default `MutableProbability(0.2, 0.02)`
evaluated when `class ArgsDispatcher` is defined. -/
def argsDispatcherDefaultMPId : ℕ := 0

/-- The store right after class definition: the default object holds
`(0.2, 0.02)`. -/
def initialMPStore : MPStore := fun _ => ⟨1/5, 1/50⟩

/-- An `ArgsDispatcher`: its adapters (opaque here) plus the object id of
its `mutation_probability`. -/
structure ArgsDispatcher (ι : Type) where
  args : ι
  mutationProbabilityId : ℕ

namespace ArgsDispatcher

/-- A dispatcher built without an explicit `mutation_probability`
(`ArgsDispatcher.initialize` calls `cls(args)`): it references the shared
default object. -/
def ofArgs (args : ι) : ArgsDispatcher ι :=
  ⟨args, argsDispatcherDefaultMPId⟩

/-- The first statement of `ArgsDispatcher.mutate`:
`self.mutation_probability.mutate(random)`, an in-place update of the
referenced object. -/
def mutateProbStep (d : ArgsDispatcher ι) (z : ℚ) (store : MPStore) : MPStore :=
  Function.update store d.mutationProbabilityId
    ((store d.mutationProbabilityId).mutate z)

/-- The probability the dispatcher's control currently holds. -/
def probabilityValue (d : ArgsDispatcher ι) (store : MPStore) : ℚ :=
  (store d.mutationProbabilityId).v

end ArgsDispatcher

/-- C10 (code_bug).  Two distinct candidates built by
`ArgsDispatcher.initialize` share the single default `MutableProbability`:
mutating candidate `0`'s mutation control (a Gaussian draw of `0.3`, i.e.
`z = 15`) changes candidate `1`'s observed mutation probability from `0.2`
to `0.5`. -/
theorem argsDispatcher_shares_default_mutation_control :
    (ArgsDispatcher.ofArgs (0 : ℤ)).mutationProbabilityId
        = (ArgsDispatcher.ofArgs (1 : ℤ)).mutationProbabilityId
    ∧ ArgsDispatcher.probabilityValue (.ofArgs (1 : ℤ)) initialMPStore = 1/5
    ∧ ArgsDispatcher.probabilityValue (.ofArgs (1 : ℤ))
        (ArgsDispatcher.mutateProbStep (.ofArgs (0 : ℤ)) 15 initialMPStore)
          = 1/2 := by
  refine ⟨rfl, rfl, ?_⟩
  show (Function.update initialMPStore 0
      ((initialMPStore 0).mutate 15) 0).v = 1/2
  rw [Function.update_same]
  norm_num [initialMPStore, MutableProbability.mutate, pyClip]

/-! ## C8: `deep_copy` preserves the value and shares no mutable state

Two levels of model.

First, the numeric adapter concretely: its one mutable datum is the 5-slot
`numpy` array, so adapters are references into a heap of such arrays.
`IntAdapter.deep_copy` (the second, overriding definition at
`int_adapter.py:83`, `IntAdapter(np.array(self.value, copy=True))`)
allocates a fresh array with the same contents; writing through the copy's
reference then cannot be seen through the original's.

Second, the recursive structure: `ListAdapter.deep_copy` and
`DictAdapter.deep_copy` rebuild every node (`[x.deep_copy() for x in ...]`,
`{k: (ka.deep_copy(), va.deep_copy()) ...}`).  An adapter tree carries the
Python object id of every node; `deep_copy` draws fresh ids from a counter.
Sharing mutable state between two adapters is having a node id in common,
so the claim is: the copy's value equals the original's, and with a fresh
counter the copy's id set is disjoint from the original's. -/

/-- A heap of numeric-adapter state arrays: the next free object id and the
contents of every allocated array. -/
structure IntAdapterHeap where
  next : ℕ
  cells : ℕ → NumericAdapterState

/-- A reference to a numeric adapter's state array. -/
structure IntAdapterRef where
  cell : ℕ

namespace IntAdapter

/-- `IntAdapter.deep_copy`: allocate a fresh array holding a copy of the
contents (`np.array(self.value, copy=True)`). -/
def deepCopy (a : IntAdapterRef) (h : IntAdapterHeap) :
    IntAdapterRef × IntAdapterHeap :=
  (⟨h.next⟩, ⟨h.next + 1, Function.update h.cells h.next (h.cells a.cell)⟩)

/-- `IntAdapter.get_value`: `int(self.value[I_VALUE])`. -/
def getValueAt (a : IntAdapterRef) (h : IntAdapterHeap) : ℤ :=
  pyTrunc (h.cells a.cell).value

/-- An in-place write of an adapter's whole state array, the shape of every
mutation `IntAdapter.mutate` performs. -/
def writeState (h : IntAdapterHeap) (c : ℕ) (s : NumericAdapterState) :
    IntAdapterHeap :=
  ⟨h.next, Function.update h.cells c s⟩

end IntAdapter

mutual
/-- An adapter tree: every node records its Python object id and its kind's
own state (`int_adapter.py`, `bool_adapter.py`, `str_adapter.py`,
`list_adapter.py`, `dict_adapter.py`). -/
inductive Adapter where
  | intA (id : ℕ) (state : NumericAdapterState)
  | boolA (id : ℕ) (value : Bool)
  | strA (id : ℕ) (value : List Char)
  | listA (id : ℕ) (children : AdapterList)
  | dictA (id : ℕ) (entries : AdapterEntries)
/-- The children of a `ListAdapter`. -/
inductive AdapterList where
  | nil
  | cons (head : Adapter) (tail : AdapterList)
/-- The `(key_adapter, value_adapter)` entries of a `DictAdapter`. -/
inductive AdapterEntries where
  | nil
  | cons (key : Adapter) (value : Adapter) (tail : AdapterEntries)
end

mutual
/-- A plain Python value as produced by `get_value`. -/
inductive PyVal where
  | intV (n : ℤ)
  | boolV (b : Bool)
  | strV (s : List Char)
  | listV (items : PyValList)
  | dictV (entries : PyValPairs)
/-- The items of a list value. -/
inductive PyValList where
  | nil
  | cons (head : PyVal) (tail : PyValList)
/-- The key/value pairs of a dict value. -/
inductive PyValPairs where
  | nil
  | cons (key : PyVal) (value : PyVal) (tail : PyValPairs)
end

mutual
/-- `get_value`, per adapter kind: leaves decode their state, containers
recurse (`ListAdapter.get_value`, `DictAdapter.get_value`). -/
def Adapter.getValue : Adapter → PyVal
  | .intA _ s => .intV (pyTrunc s.value)
  | .boolA _ b => .boolV b
  | .strA _ s => .strV s
  | .listA _ cs => .listV cs.getValues
  | .dictA _ es => .dictV es.getValues
/-- `get_value` of every child of a list adapter. -/
def AdapterList.getValues : AdapterList → PyValList
  | .nil => .nil
  | .cons a t => .cons a.getValue t.getValues
/-- `get_value` of every entry of a dict adapter. -/
def AdapterEntries.getValues : AdapterEntries → PyValPairs
  | .nil => .nil
  | .cons k v t => .cons k.getValue v.getValue t.getValues
end

mutual
/-- All Python object ids occurring in an adapter tree. -/
def Adapter.ids : Adapter → Finset ℕ
  | .intA i _ => {i}
  | .boolA i _ => {i}
  | .strA i _ => {i}
  | .listA i cs => insert i cs.idsAll
  | .dictA i es => insert i es.idsAll
/-- All object ids of a child list. -/
def AdapterList.idsAll : AdapterList → Finset ℕ
  | .nil => ∅
  | .cons a t => a.ids ∪ t.idsAll
/-- All object ids of an entry list. -/
def AdapterEntries.idsAll : AdapterEntries → Finset ℕ
  | .nil => ∅
  | .cons k v t => k.ids ∪ v.ids ∪ t.idsAll
end

mutual
/-- `deep_copy`: rebuild the tree with the same states and fresh object ids
drawn from the counter `n`. -/
def Adapter.deepCopy : Adapter → ℕ → Adapter × ℕ
  | .intA _ s, n => (.intA n s, n + 1)
  | .boolA _ b, n => (.boolA n b, n + 1)
  | .strA _ s, n => (.strA n s, n + 1)
  | .listA _ cs, n =>
    let r := cs.deepCopyAll (n + 1)
    (.listA n r.1, r.2)
  | .dictA _ es, n =>
    let r := es.deepCopyAll (n + 1)
    (.dictA n r.1, r.2)
/-- `deep_copy` of every child of a list adapter. -/
def AdapterList.deepCopyAll : AdapterList → ℕ → AdapterList × ℕ
  | .nil, n => (.nil, n)
  | .cons a t, n =>
    let ra := a.deepCopy n
    let rt := t.deepCopyAll ra.2
    (.cons ra.1 rt.1, rt.2)
/-- `deep_copy` of every entry of a dict adapter. -/
def AdapterEntries.deepCopyAll : AdapterEntries → ℕ → AdapterEntries × ℕ
  | .nil, n => (.nil, n)
  | .cons k v t, n =>
    let rk := k.deepCopy n
    let rv := v.deepCopy rk.2
    let rt := t.deepCopyAll rv.2
    (.cons rk.1 rv.1 rt.1, rt.2)
end

mutual
/-- A deep copy decodes to the same plain value as the original. -/
theorem Adapter.getValue_deepCopy :
    ∀ (a : Adapter) (n : ℕ), ((a.deepCopy n).1).getValue = a.getValue
  | .intA _ _, _ => rfl
  | .boolA _ _, _ => rfl
  | .strA _ _, _ => rfl
  | .listA _ cs, n => by
    simp only [Adapter.deepCopy, Adapter.getValue]
    rw [AdapterList.getValues_deepCopyAll_list cs (n + 1)]
  | .dictA _ es, n => by
    simp only [Adapter.deepCopy, Adapter.getValue]
    rw [AdapterEntries.getValues_deepCopyAll_entries es (n + 1)]
/-- Deep-copied children decode to the same values. -/
theorem AdapterList.getValues_deepCopyAll_list :
    ∀ (l : AdapterList) (n : ℕ), ((l.deepCopyAll n).1).getValues = l.getValues
  | .nil, _ => rfl
  | .cons a t, n => by
    simp only [AdapterList.deepCopyAll, AdapterList.getValues]
    rw [Adapter.getValue_deepCopy a n,
      AdapterList.getValues_deepCopyAll_list t (a.deepCopy n).2]
/-- Deep-copied entries decode to the same values. -/
theorem AdapterEntries.getValues_deepCopyAll_entries :
    ∀ (l : AdapterEntries) (n : ℕ), ((l.deepCopyAll n).1).getValues = l.getValues
  | .nil, _ => rfl
  | .cons k v t, n => by
    simp only [AdapterEntries.deepCopyAll, AdapterEntries.getValues]
    rw [Adapter.getValue_deepCopy k n,
      Adapter.getValue_deepCopy v (k.deepCopy n).2,
      AdapterEntries.getValues_deepCopyAll_entries t ((v.deepCopy (k.deepCopy n).2).2)]
end

mutual
/-- The id counter never decreases during a deep copy. -/
theorem Adapter.le_deepCopy_counter :
    ∀ (a : Adapter) (n : ℕ), n ≤ (a.deepCopy n).2
  | .intA _ _, n => Nat.le_succ n
  | .boolA _ _, n => Nat.le_succ n
  | .strA _ _, n => Nat.le_succ n
  | .listA _ cs, n => by
    simp only [Adapter.deepCopy]
    have := AdapterList.le_deepCopyAll_counter_list cs (n + 1)
    omega
  | .dictA _ es, n => by
    simp only [Adapter.deepCopy]
    have := AdapterEntries.le_deepCopyAll_counter_entries es (n + 1)
    omega
/-- Counter monotonicity for child lists. -/
theorem AdapterList.le_deepCopyAll_counter_list :
    ∀ (l : AdapterList) (n : ℕ), n ≤ (l.deepCopyAll n).2
  | .nil, n => le_refl n
  | .cons a t, n => by
    simp only [AdapterList.deepCopyAll]
    have h1 := Adapter.le_deepCopy_counter a n
    have h2 := AdapterList.le_deepCopyAll_counter_list t (a.deepCopy n).2
    omega
/-- Counter monotonicity for entry lists. -/
theorem AdapterEntries.le_deepCopyAll_counter_entries :
    ∀ (l : AdapterEntries) (n : ℕ), n ≤ (l.deepCopyAll n).2
  | .nil, n => le_refl n
  | .cons k v t, n => by
    simp only [AdapterEntries.deepCopyAll]
    have h1 := Adapter.le_deepCopy_counter k n
    have h2 := Adapter.le_deepCopy_counter v (k.deepCopy n).2
    have h3 := AdapterEntries.le_deepCopyAll_counter_entries t ((v.deepCopy (k.deepCopy n).2).2)
    omega
end

mutual
/-- Every object id of a deep copy is fresh: at least the starting
counter. -/
theorem Adapter.deepCopy_ids_lb :
    ∀ (a : Adapter) (n i : ℕ), i ∈ ((a.deepCopy n).1).ids → n ≤ i
  | .intA _ _, n, i, hi => by
    simp only [Adapter.deepCopy, Adapter.ids, Finset.mem_singleton] at hi
    omega
  | .boolA _ _, n, i, hi => by
    simp only [Adapter.deepCopy, Adapter.ids, Finset.mem_singleton] at hi
    omega
  | .strA _ _, n, i, hi => by
    simp only [Adapter.deepCopy, Adapter.ids, Finset.mem_singleton] at hi
    omega
  | .listA _ cs, n, i, hi => by
    simp only [Adapter.deepCopy, Adapter.ids, Finset.mem_insert] at hi
    rcases hi with h | h
    · omega
    · have := AdapterList.deepCopyAll_ids_lb_list cs (n + 1) i h
      omega
  | .dictA _ es, n, i, hi => by
    simp only [Adapter.deepCopy, Adapter.ids, Finset.mem_insert] at hi
    rcases hi with h | h
    · omega
    · have := AdapterEntries.deepCopyAll_ids_lb_entries es (n + 1) i h
      omega
/-- Freshness for child lists. -/
theorem AdapterList.deepCopyAll_ids_lb_list :
    ∀ (l : AdapterList) (n i : ℕ), i ∈ ((l.deepCopyAll n).1).idsAll → n ≤ i
  | .nil, n, i, hi => by
    simp only [AdapterList.deepCopyAll, AdapterList.idsAll] at hi
    exact absurd hi (Finset.not_mem_empty i)
  | .cons a t, n, i, hi => by
    simp only [AdapterList.deepCopyAll, AdapterList.idsAll, Finset.mem_union] at hi
    rcases hi with h | h
    · exact Adapter.deepCopy_ids_lb a n i h
    · have h1 := Adapter.le_deepCopy_counter a n
      have h2 := AdapterList.deepCopyAll_ids_lb_list t (a.deepCopy n).2 i h
      omega
/-- Freshness for entry lists. -/
theorem AdapterEntries.deepCopyAll_ids_lb_entries :
    ∀ (l : AdapterEntries) (n i : ℕ), i ∈ ((l.deepCopyAll n).1).idsAll → n ≤ i
  | .nil, n, i, hi => by
    simp only [AdapterEntries.deepCopyAll, AdapterEntries.idsAll] at hi
    exact absurd hi (Finset.not_mem_empty i)
  | .cons k v t, n, i, hi => by
    simp only [AdapterEntries.deepCopyAll, AdapterEntries.idsAll,
      Finset.mem_union] at hi
    rcases hi with (h | h) | h
    · exact Adapter.deepCopy_ids_lb k n i h
    · have h1 := Adapter.le_deepCopy_counter k n
      have h2 := Adapter.deepCopy_ids_lb v (k.deepCopy n).2 i h
      omega
    · have h1 := Adapter.le_deepCopy_counter k n
      have h2 := Adapter.le_deepCopy_counter v (k.deepCopy n).2
      have h3 := AdapterEntries.deepCopyAll_ids_lb_entries t
        ((v.deepCopy (k.deepCopy n).2).2) i h
      omega
end

/-- C8 (confirmed).  A deep copy decodes to the same value as the original;
with a fresh id counter its node ids are disjoint from the original's (the
copy shares no Python object, hence no mutable state, with the original);
and concretely for the numeric adapter's 5-slot state array: copying
allocates a new array with the same decoded value, and any write through
the copy's array leaves the original's array untouched. -/
theorem deepCopy_value_eq_and_no_shared_state :
    (∀ (a : Adapter) (n : ℕ), ((a.deepCopy n).1).getValue = a.getValue)
    ∧ (∀ (a : Adapter) (n : ℕ), (∀ i ∈ a.ids, i < n) →
        Disjoint ((a.deepCopy n).1).ids a.ids)
    ∧ (∀ (a : IntAdapterRef) (h : IntAdapterHeap), a.cell < h.next →
        IntAdapter.getValueAt (IntAdapter.deepCopy a h).1 (IntAdapter.deepCopy a h).2
            = IntAdapter.getValueAt a h
        ∧ ∀ s, (IntAdapter.writeState (IntAdapter.deepCopy a h).2
              (IntAdapter.deepCopy a h).1.cell s).cells a.cell = h.cells a.cell) := by
  refine ⟨Adapter.getValue_deepCopy, ?_, ?_⟩
  · intro a n hlt
    rw [Finset.disjoint_left]
    intro i hcopy horig
    have h1 := Adapter.deepCopy_ids_lb a n i hcopy
    have h2 := hlt i horig
    omega
  · intro a h hlt
    constructor
    · show pyTrunc ((Function.update h.cells h.next (h.cells a.cell)) h.next).value
        = pyTrunc (h.cells a.cell).value
      rw [Function.update_same]
    · intro s
      show (Function.update (Function.update h.cells h.next (h.cells a.cell))
          h.next s) a.cell = h.cells a.cell
      rw [Function.update_noteq (by omega), Function.update_noteq (by omega)]
